import Mathlib

/-
  Verification of the attention-portfolio-manager core
  (categorization, aggregation, correlation and recommendation engine).

  Shallow embedding conventions:
  * Python floats are modelled as ℚ (exact arithmetic); the Pearson
    correlation coefficient, which needs a square root, lives in ℝ.
  * Python's builtin `round` is round-half-to-even (banker's rounding);
    it is modelled by `rne` below.  `int(...)` truncates toward zero and
    is modelled by `intTrunc`.
  * A pandas/SQL NULL (or float NaN produced by 0/0) is an `Option` none.
  * Calendar dates (ISO `YYYY-MM-DD` strings in the source, which sort
    lexicographically in chronological order) are modelled as ℕ day
    numbers; the order is the same.
-/

namespace APM

/-! ### Rounding helpers -/

/-- Python's builtin `round` to zero decimal places: round half to even. -/
def rne {α : Type*} [LinearOrderedField α] [FloorRing α] [DecidableEq α] (x : α) : ℤ :=
  if Int.fract x = 1 / 2 then (if ⌊x⌋ % 2 = 0 then ⌊x⌋ else ⌊x⌋ + 1) else round x

/-- Python `round(x, 1)` on exact rationals. -/
def round1 (x : ℚ) : ℚ := (rne (x * 10) : ℚ) / 10

/-- Python `round(x, 2)` on reals (used for correlation coefficients). -/
noncomputable def round2R (x : ℝ) : ℝ := ((rne (x * 100) : ℤ) : ℝ) / 100

/-- Python `int(x)`: truncation toward zero. -/
def intTrunc (x : ℚ) : ℤ := if 0 ≤ x then ⌊x⌋ else ⌈x⌉

theorem abs_rne_sub {α : Type*} [LinearOrderedField α] [FloorRing α] [DecidableEq α]
    (x : α) : |(rne x : α) - x| ≤ 1 / 2 := by
  unfold rne
  split_ifs with h h2
  · rw [abs_le]
    have hx : x - (⌊x⌋ : α) = 1 / 2 := by rw [Int.self_sub_floor] at *; exact h
    constructor <;> [linarith; linarith]
  · rw [abs_le]
    have hx : x - (⌊x⌋ : α) = 1 / 2 := by rw [Int.self_sub_floor] at *; exact h
    push_cast
    constructor <;> [linarith; linarith]
  · have := abs_sub_round x
    rw [abs_sub_comm] at this
    exact this

theorem rne_bounds {α : Type*} [LinearOrderedField α] [FloorRing α] [DecidableEq α]
    {x : α} {lo hi : ℤ} (h1 : (lo : α) ≤ x) (h2 : x ≤ (hi : α)) :
    lo ≤ rne x ∧ rne x ≤ hi := by
  have habs := abs_rne_sub x
  rw [abs_le] at habs
  constructor
  · have h3 : ((lo - 1 : ℤ) : α) < ((rne x : ℤ) : α) := by push_cast; linarith
    have := Int.cast_lt.mp h3
    omega
  · have h3 : ((rne x : ℤ) : α) < ((hi + 1 : ℤ) : α) := by push_cast; linarith
    have := Int.cast_lt.mp h3
    omega

theorem rne_intCast {α : Type*} [LinearOrderedField α] [FloorRing α] [DecidableEq α]
    (n : ℤ) : rne ((n : α)) = n := by
  unfold rne
  rw [Int.fract_intCast]
  have h : (0 : α) ≠ 1 / 2 := by norm_num
  rw [if_neg h, round_intCast]

theorem round1_bounds {x : ℚ} {lo hi : ℤ} (h1 : (lo : ℚ) ≤ x) (h2 : x ≤ (hi : ℚ)) :
    (lo : ℚ) ≤ round1 x ∧ round1 x ≤ (hi : ℚ) := by
  have h1' : ((10 * lo : ℤ) : ℚ) ≤ x * 10 := by push_cast; linarith
  have h2' : x * 10 ≤ ((10 * hi : ℤ) : ℚ) := by push_cast; linarith
  obtain ⟨b1, b2⟩ := rne_bounds h1' h2'
  unfold round1
  constructor
  · have : ((10 * lo : ℤ) : ℚ) ≤ (rne (x * 10) : ℚ) := by exact_mod_cast b1
    push_cast at this
    linarith
  · have : (rne (x * 10) : ℚ) ≤ ((10 * hi : ℤ) : ℚ) := by exact_mod_cast b2
    push_cast at this
    linarith

/-! ### Substring matching (Python `term in text`) -/

def prefChars : List Char → List Char → Bool
  | [], _ => true
  | _ :: _, [] => false
  | a :: t, b :: s => a == b && prefChars t s

def subChars : List Char → List Char → Bool
  | t, [] => t.isEmpty
  | t, b :: s' => prefChars t (b :: s') || subChars t s'

/-- Python `term in text` (substring containment). -/
def strIn (term text : String) : Bool := subChars term.data text.data

/-- Python `str.lower()` (the source only ever lowercases ASCII keywords). -/
def lowerStr (s : String) : String := ⟨s.data.map Char.toLower⟩

/-! ### Domain categorizer

`categorize_event` from `attention_portfolio_manager.py` (lines 106-123):
a dict of keyword lists, iterated in insertion order (Python 3.7+ dicts
preserve insertion order), returning the first (category, reason) whose
keyword occurs as a substring of the lowercased `name + " " + description`.
-/

/-- The keyword table of `categorize_event`, in its fixed insertion order. -/
def keywords : List (String × List String) :=
  [("Generation", ["create", "build", "develop", "design", "work", "project", "produce",
                   "write", "code", "draft", "edit", "make", "generate", "create", "brainstorm"]),
   ("Charging", ["rest", "relax", "recharge", "sleep", "meditate", "recovery", "break",
                 "nap", "unwind", "breathe", "yoga", "self-care"]),
   ("Growth", ["learn", "study", "read", "course", "training", "development", "skill",
               "improve", "practice", "master", "workshop", "webinar"]),
   ("Connection", ["meet", "call", "chat", "coffee", "lunch", "dinner", "social", "friend",
                   "family", "team", "collaborate", "network", "relationship"]),
   ("Vitality", ["exercise", "gym", "workout", "run", "walk", "hike", "swim", "health",
                 "doctor", "nutrition", "fitness", "physical"])]

/-- The inner `for term in terms` loop: first matching keyword, if any. -/
def findTerm (text : String) : List String → Option String
  | [] => none
  | t :: ts => if strIn t text then some t else findTerm text ts

/-- The outer `for category, terms in keywords.items()` loop. -/
def catGo (text : String) : List (String × List String) → String × String
  | [] => ("Other", "No matching keywords found")
  | (cat, terms) :: rest =>
    match findTerm text terms with
    | some t => (cat, "Matched keyword " ++ t)
    | none => catGo text rest

/-- `categorize_event(event_name, description)` (returns `(category, reason)`;
the source formats the reason with quotes around the keyword, which we omit). -/
def categorize_event (event_name description : String) : String × String :=
  catGo (lowerStr (event_name ++ " " ++ description)) keywords

/-- The keyword table of `GoogleCalendarConnector.categorize_events`
(`src/data/calendar_connector.py` lines 170-200), in insertion order. -/
def category_keywords : List (String × List String) :=
  [("Generation", ["create", "write", "draft", "author", "build", "develop", "code",
                   "design", "produce", "generate", "make", "craft", "compose", "project",
                   "implement", "program", "construct", "plan", "strategize", "brainstorm",
                   "deep work", "focus", "flow"]),
   ("Charging", ["rest", "sleep", "nap", "meditate", "relax", "recovery", "recharge",
                 "break", "pause", "self-care", "downtime", "unwind", "leisure",
                 "vacation", "holiday", "day off", "pto", "personal", "me time"]),
   ("Growth", ["learn", "study", "read", "course", "class", "training", "development",
               "workshop", "seminar", "conference", "webinar", "education", "skill",
               "improve", "growth", "progress", "lecture", "tutorial", "lesson",
               "research", "explore", "practice"]),
   ("Connection", ["meet", "call", "chat", "coffee", "lunch", "dinner", "social",
                   "friend", "family", "network", "connect", "relationship", "date",
                   "party", "gathering", "celebration", "hangout", "catch up", "reunion",
                   "zoom", "teams", "google meet", "facetime", "1:1", "1-1", "one on one"]),
   ("Vitality", ["gym", "workout", "exercise", "run", "jog", "yoga", "pilates", "health",
                 "doctor", "medical", "dentist", "therapy", "fitness", "swim", "bike",
                 "hike", "walk", "sport", "train", "physical", "nutrition", "diet",
                 "massage", "stretch", "wellness"])]

/-- The `for category, keywords in category_keywords.items(): if any(...)` loop
of `match_category` in the calendar connector. -/
def anyGo (text : String) : List (String × List String) → String
  | [] => "Other"
  | (cat, kws) :: rest => if kws.any (fun k => strIn k text) then cat else anyGo text rest

/-- `match_category(row)` from `GoogleCalendarConnector.categorize_events`
(text is the lowercased `summary + " " + description`). -/
def match_category (summary description : String) : String :=
  anyGo (lowerStr (summary ++ " " ++ description)) category_keywords

/-- Predicate: some keyword of the table entry `p` occurs in the text built
from title `t` and description `d`. -/
def domainMatch (t d : String) (p : String × List String) : Bool :=
  p.2.any (fun k => strIn k (lowerStr (t ++ " " ++ d)))

theorem findTerm_none_iff (text : String) (ts : List String) :
    findTerm text ts = none ↔ ts.any (fun k => strIn k text) = false := by
  induction ts with
  | nil => simp [findTerm]
  | cons t ts ih =>
    simp only [findTerm, List.any_cons, Bool.or_eq_false_iff]
    split_ifs with h
    · simp [h]
    · simpa [h] using ih

theorem catGo_first_match (text : String) (L : List (String × List String)) :
    (∀ p, L.find? (fun q => q.2.any (fun k => strIn k text)) = some p →
      (catGo text L).1 = p.1) ∧
    (L.find? (fun q => q.2.any (fun k => strIn k text)) = none →
      (catGo text L).1 = "Other") := by
  induction L with
  | nil => simp [catGo]
  | cons hd tl ih =>
    obtain ⟨c, terms⟩ := hd
    by_cases hm : terms.any (fun k => strIn k text) = true
    · have hma : (fun q : String × List String => q.2.any (fun k => strIn k text)) (c, terms) = true := hm
      constructor
      · intro p hp
        rw [@List.find?_cons_of_pos _ (fun q : String × List String => q.2.any (fun k => strIn k text)) _ tl hma] at hp
        cases hp
        have hft : findTerm text terms ≠ none := by
          intro hc
          rw [findTerm_none_iff] at hc
          simp [hm] at hc
        simp only [catGo]
        cases hf : findTerm text terms with
        | none => exact absurd hf hft
        | some t => simp
      · intro hp
        rw [@List.find?_cons_of_pos _ (fun q : String × List String => q.2.any (fun k => strIn k text)) _ tl hma] at hp
        cases hp
    · have hmn : ¬ ((fun q : String × List String => q.2.any (fun k => strIn k text)) (c, terms) = true) := hm
      have hft : findTerm text terms = none := by
        rw [findTerm_none_iff]
        simpa using hm
      constructor
      · intro p hp
        rw [@List.find?_cons_of_neg _ (fun q : String × List String => q.2.any (fun k => strIn k text)) _ tl hmn] at hp
        simp only [catGo, hft]
        exact ih.1 p hp
      · intro hp
        rw [@List.find?_cons_of_neg _ (fun q : String × List String => q.2.any (fun k => strIn k text)) _ tl hmn] at hp
        simp only [catGo, hft]
        exact ih.2 hp

theorem anyGo_first_match (text : String) (L : List (String × List String)) :
    (∀ p, L.find? (fun q => q.2.any (fun k => strIn k text)) = some p →
      anyGo text L = p.1) ∧
    (L.find? (fun q => q.2.any (fun k => strIn k text)) = none →
      anyGo text L = "Other") := by
  induction L with
  | nil => simp [anyGo]
  | cons hd tl ih =>
    obtain ⟨c, kws⟩ := hd
    by_cases hm : kws.any (fun k => strIn k text) = true
    · have hma : (fun q : String × List String => q.2.any (fun k => strIn k text)) (c, kws) = true := hm
      constructor
      · intro p hp
        rw [@List.find?_cons_of_pos _ (fun q : String × List String => q.2.any (fun k => strIn k text)) _ tl hma] at hp
        cases hp
        simp [anyGo, hm]
      · intro hp
        rw [@List.find?_cons_of_pos _ (fun q : String × List String => q.2.any (fun k => strIn k text)) _ tl hma] at hp
        cases hp
    · have hmn : ¬ ((fun q : String × List String => q.2.any (fun k => strIn k text)) (c, kws) = true) := hm
      constructor
      · intro p hp
        rw [@List.find?_cons_of_neg _ (fun q : String × List String => q.2.any (fun k => strIn k text)) _ tl hmn] at hp
        simpa [anyGo, hm] using ih.1 p hp
      · intro hp
        rw [@List.find?_cons_of_neg _ (fun q : String × List String => q.2.any (fun k => strIn k text)) _ tl hmn] at hp
        simpa [anyGo, hm] using ih.2 hp

theorem catGo_label_mem (text : String) (L : List (String × List String)) :
    (catGo text L).1 = "Other" ∨ (catGo text L).1 ∈ L.map Prod.fst := by
  induction L with
  | nil => left; rfl
  | cons hd tl ih =>
    obtain ⟨c, terms⟩ := hd
    simp only [catGo]
    cases hf : findTerm text terms with
    | some t => right; simp
    | none =>
      rcases ih with h | h
      · left; exact h
      · right; simp only [List.map_cons, List.mem_cons]; right; exact h

theorem anyGo_label_mem (text : String) (L : List (String × List String)) :
    anyGo text L = "Other" ∨ anyGo text L ∈ L.map Prod.fst := by
  induction L with
  | nil => left; rfl
  | cons hd tl ih =>
    obtain ⟨c, kws⟩ := hd
    simp only [anyGo]
    split_ifs with h
    · right; simp
    · rcases ih with h2 | h2
      · left; exact h2
      · right; simp only [List.map_cons, List.mem_cons]; right; exact h2

/-- C2: the categorization function is total and deterministic, its label is
always one of the six fixed domains, it returns the first domain of the fixed
priority order `Generation, Charging, Growth, Connection, Vitality` whose
keyword set has a substring match in the lowercased concatenated text (and
`Other` when none matches), and `categorize("Write blog post", "")` yields
`Generation`.  Both implementations (the dashboard's `categorize_event` and
the calendar connector's `match_category`) are covered. -/
theorem categorize_is_first_match :
    (∀ t d t2 d2, t = t2 → d = d2 →
      (categorize_event t d).1 = (categorize_event t2 d2).1 ∧
      match_category t d = match_category t2 d2) ∧
    (∀ t d, (categorize_event t d).1 ∈
      ["Generation", "Charging", "Growth", "Connection", "Vitality", "Other"] ∧
      match_category t d ∈
      ["Generation", "Charging", "Growth", "Connection", "Vitality", "Other"]) ∧
    (∀ t d p, keywords.find? (domainMatch t d) = some p →
      (categorize_event t d).1 = p.1) ∧
    (∀ t d, keywords.find? (domainMatch t d) = none →
      (categorize_event t d).1 = "Other") ∧
    (∀ t d p, category_keywords.find? (domainMatch t d) = some p →
      match_category t d = p.1) ∧
    (∀ t d, category_keywords.find? (domainMatch t d) = none →
      match_category t d = "Other") ∧
    (categorize_event "Write blog post" "").1 = "Generation" ∧
    match_category "Write blog post" "" = "Generation" := by
  refine ⟨?_, ?_, ?_, ?_, ?_, ?_, ?_, ?_⟩
  · rintro t d t2 d2 rfl rfl
    exact ⟨rfl, rfl⟩
  · intro t d
    have h5 : keywords.map Prod.fst =
        ["Generation", "Charging", "Growth", "Connection", "Vitality"] := rfl
    have h5' : category_keywords.map Prod.fst =
        ["Generation", "Charging", "Growth", "Connection", "Vitality"] := rfl
    constructor
    · rcases catGo_label_mem (lowerStr (t ++ " " ++ d)) keywords with h | h
      · rw [categorize_event, h]; simp
      · rw [h5] at h
        rw [categorize_event]
        simp only [List.mem_cons, List.not_mem_nil, or_false] at h ⊢
        tauto
    · rcases anyGo_label_mem (lowerStr (t ++ " " ++ d)) category_keywords with h | h
      · rw [match_category, h]; simp
      · rw [h5'] at h
        rw [match_category]
        simp only [List.mem_cons, List.not_mem_nil, or_false] at h ⊢
        tauto
  · intro t d p hp
    exact (catGo_first_match _ _).1 p hp
  · intro t d hp
    exact (catGo_first_match _ _).2 hp
  · intro t d p hp
    exact (anyGo_first_match _ _).1 p hp
  · intro t d hp
    exact (anyGo_first_match _ _).2 hp
  · decide
  · decide

/-- Witness for C2 at the concrete scenario input. -/
theorem categorize_is_first_match_witness :
    (categorize_event "Write blog post" "").1 = (categorize_event "Write blog post" "").1 ∧
    (categorize_event "Write blog post" "").1 = "Generation" := by
  refine ⟨(categorize_is_first_match.1 "Write blog post" "" "Write blog post" "" rfl rfl).1, ?_⟩
  have h : keywords.find? (domainMatch "Write blog post" "") =
      some ("Generation", ["create", "build", "develop", "design", "work", "project",
        "produce", "write", "code", "draft", "edit", "make", "generate", "create",
        "brainstorm"]) := by decide
  exact categorize_is_first_match.2.2.1 "Write blog post" "" _ h

/-! ### Generic list lemmas -/

theorem sum_if_eq {β : Type*} [DecidableEq β] (D : List β) (t0 : β) (c : ℚ)
    (hN : D.Nodup) (ht : t0 ∈ D) :
    (D.map (fun t => if t = t0 then c else 0)).sum = c := by
  induction D with
  | nil => cases ht
  | cons b D ih =>
    rcases List.mem_cons.mp ht with rfl | ht'
    · simp only [List.map_cons, List.sum_cons, if_pos rfl]
      have hb : t0 ∉ D := (List.nodup_cons.mp hN).1
      have hz : (D.map (fun t => if t = t0 then c else 0)).sum = 0 := by
        apply List.sum_eq_zero
        intro x hx
        obtain ⟨t, htD, rfl⟩ := List.mem_map.mp hx
        rw [if_neg]
        rintro rfl
        exact hb htD
      rw [hz]
      simp
    · have hb : b ≠ t0 := by
        rintro rfl
        exact (List.nodup_cons.mp hN).1 ht'
      simp only [List.map_cons, List.sum_cons, if_neg hb]
      rw [ih (List.nodup_cons.mp hN).2 ht']
      ring

/-- Summing group totals over the distinct keys recovers the total sum. -/
theorem sum_fiber_dedup {α β : Type*} [DecidableEq β] (L : List α) (key : α → β)
    (f : α → ℚ) :
    ((L.map key).dedup.map
      (fun t => ((L.filter (fun e => decide (key e = t))).map f).sum)).sum
    = (L.map f).sum := by
  induction L with
  | nil => simp
  | cons a L ih =>
    have hsplit : ∀ t : β, (((a :: L).filter (fun e => decide (key e = t))).map f).sum
        = (if t = key a then f a else 0)
          + ((L.filter (fun e => decide (key e = t))).map f).sum := by
      intro t
      rw [List.filter_cons]
      by_cases h : key a = t
      · rw [if_pos (by simpa using h), if_pos h.symm]
        simp
      · rw [if_neg (by simpa using h), if_neg (fun hh => h hh.symm)]
        ring
    by_cases hmem : key a ∈ L.map key
    · rw [List.map_cons, List.dedup_cons_of_mem hmem]
      calc ((L.map key).dedup.map
              (fun t => (((a :: L).filter (fun e => decide (key e = t))).map f).sum)).sum
          = ((L.map key).dedup.map
              (fun t => (if t = key a then f a else 0)
                + ((L.filter (fun e => decide (key e = t))).map f).sum)).sum := by
            congr 1
            exact List.map_congr_left (fun t _ => hsplit t)
        _ = ((L.map key).dedup.map (fun t => if t = key a then f a else 0)).sum
            + ((L.map key).dedup.map
                (fun t => ((L.filter (fun e => decide (key e = t))).map f).sum)).sum := by
            rw [List.sum_map_add]
        _ = f a + (L.map f).sum := by
            rw [sum_if_eq _ _ _ (List.nodup_dedup _) (List.mem_dedup.mpr hmem), ih]
        _ = ((a :: L).map f).sum := by simp
    · rw [List.map_cons, List.dedup_cons_of_not_mem hmem, List.map_cons, List.sum_cons]
      have hhead : (((a :: L).filter (fun e => decide (key e = key a))).map f).sum = f a := by
        rw [hsplit (key a), if_pos rfl]
        have : L.filter (fun e => decide (key e = key a)) = [] := by
          rw [List.filter_eq_nil_iff]
          intro x hx hkx
          exact hmem (List.mem_map.mpr ⟨x, hx, by simpa using hkx⟩)
        rw [this]
        simp
      have htail : ((L.map key).dedup.map
            (fun t => (((a :: L).filter (fun e => decide (key e = t))).map f).sum)).sum
          = ((L.map key).dedup.map
            (fun t => ((L.filter (fun e => decide (key e = t))).map f).sum)).sum := by
        congr 1
        apply List.map_congr_left
        intro t htmem
        rw [hsplit t, if_neg, zero_add]
        rintro rfl
        exact hmem (List.mem_dedup.mp htmem)
      rw [hhead, htail, ih]
      simp

theorem sum_map_filter_le {α : Type*} (l : List α) (q : α → Bool) (f : α → ℚ)
    (h : ∀ x ∈ l, 0 ≤ f x) : ((l.filter q).map f).sum ≤ (l.map f).sum := by
  induction l with
  | nil => simp
  | cons a l ih =>
    have ha := h a (List.mem_cons_self a l)
    have ih' := ih (fun x hx => h x (List.mem_cons_of_mem a hx))
    rw [List.filter_cons]
    by_cases hq : q a = true
    · rw [if_pos hq]
      simp only [List.map_cons, List.sum_cons]
      linarith
    · rw [if_neg hq]
      simp only [List.map_cons, List.sum_cons]
      linarith

theorem filter_flatMap {α β : Type*} (L : List α) (g : α → List β) (p : β → Bool) :
    (L.flatMap g).filter p = L.flatMap (fun x => (g x).filter p) := by
  induction L with
  | nil => rfl
  | cons a L ih => simp [List.flatMap_cons, List.filter_append, ih]

theorem flatMap_eq_single {α β : Type*} (D : List α) (g : α → List β) (d : α)
    (hN : D.Nodup) (hd : d ∈ D) (hz : ∀ x ∈ D, x ≠ d → g x = []) :
    D.flatMap g = g d := by
  induction D with
  | nil => cases hd
  | cons a D ih =>
    rcases List.mem_cons.mp hd with rfl | hd'
    · rw [List.flatMap_cons]
      have hrest : D.flatMap g = [] := by
        apply List.flatMap_eq_nil_iff.mpr
        intro x hx
        apply hz x (List.mem_cons_of_mem d hx)
        rintro rfl
        exact (List.nodup_cons.mp hN).1 hx
      rw [hrest, List.append_nil]
    · have ha : a ≠ d := by
        rintro rfl
        exact (List.nodup_cons.mp hN).1 hd'
      rw [List.flatMap_cons, hz a (List.mem_cons_self a D) ha, List.nil_append]
      exact ih (List.nodup_cons.mp hN).2 hd'
        (fun x hx hxd => hz x (List.mem_cons_of_mem a hx) hxd)

/-! ### Stable insertion sort (models Python's stable `sorted`) -/

def insOrd {α : Type*} (keep : α → α → Bool) (a : α) : List α → List α
  | [] => [a]
  | b :: t => if keep b a then b :: insOrd keep a t else a :: b :: t

def sortOrd {α : Type*} (keep : α → α → Bool) : List α → List α
  | [] => []
  | a :: t => insOrd keep a (sortOrd keep t)

theorem insOrd_perm {α : Type*} (keep : α → α → Bool) (a : α) (l : List α) :
    (insOrd keep a l).Perm (a :: l) := by
  induction l with
  | nil => exact List.Perm.refl _
  | cons b t ih =>
    rw [insOrd]
    split_ifs
    · exact (ih.cons b).trans (List.Perm.swap a b t)
    · exact List.Perm.refl _

theorem sortOrd_perm {α : Type*} (keep : α → α → Bool) (l : List α) :
    (sortOrd keep l).Perm l := by
  induction l with
  | nil => exact List.Perm.refl _
  | cons a t ih => exact (insOrd_perm keep a (sortOrd keep t)).trans (ih.cons a)

theorem mem_sortOrd {α : Type*} (keep : α → α → Bool) (x : α) (l : List α) :
    x ∈ sortOrd keep l ↔ x ∈ l :=
  (sortOrd_perm keep l).mem_iff

/-! ### Activity records and the metrics aggregator (`calculate_attention`)

Events carry the fields of the `events_df` rows built in
`attention_portfolio_manager.py`: date, start-hour-as-fraction, title,
description and `Event Total Time` in hours.
-/

structure Event where
  date : ℕ
  time : ℚ
  name : String
  description : String
  duration : ℚ
  deriving DecidableEq

/-- The `Theme` column: `categorize_event(...)[0]`. -/
def themeOf (e : Event) : String := (categorize_event e.name e.description).1

def eventsOn (evs : List Event) (d : ℕ) : List Event :=
  evs.filter (fun e => decide (e.date = d))

/-- The distinct dates, in groupby order. -/
def datesOf (evs : List Event) : List ℕ := (evs.map (fun e => e.date)).dedup

def themesOn (evs : List Event) (d : ℕ) : List String :=
  ((eventsOn evs d).map themeOf).dedup

/-- `Total Time` for one date (sum of `Event Total Time`). -/
def totalOn (evs : List Event) (d : ℕ) : ℚ :=
  ((eventsOn evs d).map (fun e => e.duration)).sum

/-- `Event Total Time` summed for one `(date, theme)` group. -/
def themeTotalOn (evs : List Event) (d : ℕ) (t : String) : ℚ :=
  (((eventsOn evs d).filter (fun e => decide (themeOf e = t))).map
    (fun e => e.duration)).sum

/-- One output row of `calculate_attention`.  `percentage` is an `Option`:
`none` models the float NaN that pandas produces for `0/0 * 100`. -/
structure AllocRow where
  date : ℕ
  timeframe : String
  theme : String
  absolute : ℚ
  percentage : Option ℚ
  deriving DecidableEq

/-- The rows `calculate_attention` produces for one date. -/
def allocRowsOn (evs : List Event) (d : ℕ) : List AllocRow :=
  (themesOn evs d).map (fun t =>
    { date := d
      timeframe := "day"
      theme := t
      absolute := themeTotalOn evs d t
      percentage := if totalOn evs d = 0 then none
                    else some (themeTotalOn evs d t / totalOn evs d * 100) })

/-- `calculate_attention(events)`: group by `(Date, Theme)`, sum durations,
merge with per-date totals and derive `Theme % Amount`. -/
def calculate_attention (evs : List Event) : List AllocRow :=
  (datesOf evs).flatMap (allocRowsOn evs)

theorem allocRowsOn_date (evs : List Event) (d : ℕ) :
    ∀ r ∈ allocRowsOn evs d, r.date = d := by
  intro r hr
  obtain ⟨t, _, rfl⟩ := List.mem_map.mp hr
  rfl

theorem calculate_attention_filter (evs : List Event) (d : ℕ) (hd : d ∈ datesOf evs) :
    (calculate_attention evs).filter (fun r => decide (r.date = d)) = allocRowsOn evs d := by
  rw [calculate_attention, filter_flatMap]
  have hz : ∀ x ∈ datesOf evs, x ≠ d →
      (allocRowsOn evs x).filter (fun r => decide (r.date = d)) = [] := by
    intro x hx hxd
    apply List.filter_eq_nil_iff.mpr
    intro r hr
    have hrx := allocRowsOn_date evs x r hr
    simp only [decide_eq_true_eq]
    rw [hrx]
    exact hxd
  have hnd : (datesOf evs).Nodup := List.nodup_dedup _
  rw [flatMap_eq_single _ _ d hnd hd hz]
  apply List.filter_eq_self.mpr
  intro r hr
  simpa using allocRowsOn_date evs d r hr

theorem sum_map_mul_const {α : Type*} (l : List α) (f : α → ℚ) (c : ℚ) :
    (l.map (fun x => f x * c)).sum = (l.map f).sum * c := by
  induction l with
  | nil => simp
  | cons a l ih =>
    simp only [List.map_cons, List.sum_cons, ih]
    ring

/-- C4: for every date with at least one classified record and a nonzero total
of minutes, the percentages of that date sum to 100 within the 0.01 tolerance,
and (under the record invariant `duration ≥ 0`) every absolute amount in the
daily allocation is nonnegative. -/
theorem calculate_attention_sums_to_100 (evs : List Event) (d : ℕ)
    (hdur : ∀ e ∈ evs, 0 ≤ e.duration) (hd : d ∈ datesOf evs)
    (hnz : totalOn evs d ≠ 0) :
    |(((calculate_attention evs).filter (fun r => decide (r.date = d))).map
        (fun r => r.percentage.getD 0)).sum - 100| ≤ 1 / 100 ∧
    ∀ r ∈ calculate_attention evs, 0 ≤ r.absolute := by
  constructor
  · rw [calculate_attention_filter evs d hd]
    have hmap : ((allocRowsOn evs d).map (fun r => r.percentage.getD 0))
        = (themesOn evs d).map
            (fun t => themeTotalOn evs d t * (100 / totalOn evs d)) := by
      rw [allocRowsOn, List.map_map]
      apply List.map_congr_left
      intro t ht
      simp only [Function.comp_apply, if_neg hnz, Option.getD_some]
      field_simp
    rw [hmap, sum_map_mul_const]
    have htot : ((themesOn evs d).map (fun t => themeTotalOn evs d t)).sum
        = totalOn evs d := by
      simp only [themesOn, themeTotalOn, totalOn]
      exact sum_fiber_dedup (eventsOn evs d) themeOf (fun e => e.duration)
    rw [htot]
    rw [mul_div_cancel₀ _ hnz]
    simp
  · intro r hr
    obtain ⟨d', hd', hr'⟩ := List.mem_flatMap.mp hr
    obtain ⟨t, ht, rfl⟩ := List.mem_map.mp hr'
    show 0 ≤ themeTotalOn evs d' t
    apply List.sum_nonneg
    intro x hx
    obtain ⟨e, he, rfl⟩ := List.mem_map.mp hx
    exact hdur e (List.mem_filter.mp (List.mem_filter.mp he).1).1

/-- Witness for C4 on a concrete two-event day. -/
theorem calculate_attention_sums_to_100_witness :
    |(((calculate_attention [⟨1, 9, "write essay", "", 2⟩, ⟨1, 10, "gym", "", 1⟩]).filter
        (fun r => decide (r.date = 1))).map (fun r => r.percentage.getD 0)).sum - 100|
      ≤ 1 / 100 ∧
    ∀ r ∈ calculate_attention [⟨1, 9, "write essay", "", 2⟩, ⟨1, 10, "gym", "", 1⟩],
      0 ≤ r.absolute :=
  calculate_attention_sums_to_100 _ 1 (by with_unfolding_all decide) (by decide)
    (by with_unfolding_all decide)

theorem totalOn_pos_of_mem (evs : List Event) (d : ℕ)
    (hdur : ∀ e ∈ evs, 0 < e.duration) (hd : d ∈ datesOf evs) :
    0 < totalOn evs d := by
  obtain ⟨e, he, hde⟩ := List.mem_map.mp (List.mem_dedup.mp hd)
  have hmem : e ∈ eventsOn evs d := List.mem_filter.mpr ⟨he, by simpa using hde⟩
  have hdm : e.duration ∈ (eventsOn evs d).map (fun x => x.duration) :=
    List.mem_map.mpr ⟨e, hmem, rfl⟩
  have hnn : ∀ x ∈ (eventsOn evs d).map (fun x => x.duration), 0 ≤ x := by
    intro x hx
    obtain ⟨e', he', rfl⟩ := List.mem_map.mp hx
    exact le_of_lt (hdur e' (List.mem_filter.mp he').1)
  have hle := List.single_le_sum hnn _ hdm
  have hpos := hdur e he
  rw [totalOn]
  linarith

/-- C5 (amended): for inputs in which every record has positive duration, a
date whose total tracked minutes are zero produces zero rows (it is simply
absent from the output), and no emitted row carries an undefined (NaN)
percentage. -/
theorem calculate_attention_zero_total (evs : List Event) (d : ℕ)
    (hdur : ∀ e ∈ evs, 0 < e.duration) (hz : totalOn evs d = 0) :
    (calculate_attention evs).filter (fun r => decide (r.date = d)) = [] ∧
    ∀ r ∈ calculate_attention evs, r.percentage ≠ none := by
  have hnotin : d ∉ datesOf evs := by
    intro hd
    have := totalOn_pos_of_mem evs d hdur hd
    rw [hz] at this
    exact lt_irrefl 0 this
  constructor
  · apply List.filter_eq_nil_iff.mpr
    intro r hr
    obtain ⟨d', hd', hr'⟩ := List.mem_flatMap.mp hr
    have hrd := allocRowsOn_date evs d' r hr'
    simp only [decide_eq_true_eq]
    rw [hrd]
    rintro rfl
    exact hnotin hd'
  · intro r hr
    obtain ⟨d', hd', hr'⟩ := List.mem_flatMap.mp hr
    obtain ⟨t, ht, rfl⟩ := List.mem_map.mp hr'
    have hpos := totalOn_pos_of_mem evs d' hdur hd'
    show (if totalOn evs d' = 0 then none
          else some (themeTotalOn evs d' t / totalOn evs d' * 100)) ≠ none
    rw [if_neg (ne_of_gt hpos)]
    exact Option.some_ne_none _

/-- C5 counterexample: a date whose records all have zero duration has zero
total tracked minutes, yet `calculate_attention` emits a row for it, and that
row's percentage is undefined (NaN, modelled as `none`): the claim's "zero
rows, no NaN" fails as stated. -/
theorem calculate_attention_zero_total_cex :
    totalOn [⟨1, 9, "x", "", 0⟩] 1 = 0 ∧
    (calculate_attention [⟨1, 9, "x", "", 0⟩]).filter (fun r => decide (r.date = 1)) ≠ [] ∧
    (⟨1, "day", "Other", 0, none⟩ : AllocRow) ∈ calculate_attention [⟨1, 9, "x", "", 0⟩] := by
  refine ⟨by with_unfolding_all decide, by with_unfolding_all decide,
    by with_unfolding_all decide⟩

/-- Witness for C5 (amended) on a concrete input: date 2 has no records. -/
theorem calculate_attention_zero_total_witness :
    (calculate_attention [⟨1, 9, "write essay", "", 2⟩]).filter
      (fun r => decide (r.date = 2)) = [] ∧
    ∀ r ∈ calculate_attention [⟨1, 9, "write essay", "", 2⟩], r.percentage ≠ none :=
  calculate_attention_zero_total _ 2 (by with_unfolding_all decide)
    (by with_unfolding_all decide)

/-! ### Time-of-day bucketing (`identify_patterns`, part 1) -/

inductive TimeBucket
  | Morning
  | Afternoon
  | Evening
  deriving DecidableEq

/-- `pd.cut(events_df["Time"], bins=[0, 12, 17, 24], labels=["Morning",
"Afternoon", "Evening"])` with the pandas default `right=True`: the bins are
the left-open/right-closed intervals `(0, 12]`, `(12, 17]`, `(17, 24]`, and a
value in no bin (such as exactly 0) gets NaN (`none`). -/
def timeCategory (h : ℚ) : Option TimeBucket :=
  if 0 < h ∧ h ≤ 12 then some TimeBucket.Morning
  else if 12 < h ∧ h ≤ 17 then some TimeBucket.Afternoon
  else if 17 < h ∧ h ≤ 24 then some TimeBucket.Evening
  else none

/-- C7 counterexample: the claim's half-open bucketing fails at the explicit
inputs 12 (claim: Afternoon; code: Morning) and 0 (claim: Morning; code: no
bucket). -/
theorem timeCategory_cex :
    timeCategory 12 = some TimeBucket.Morning ∧
    timeCategory 12 ≠ some TimeBucket.Afternoon ∧
    timeCategory 0 ≠ some TimeBucket.Morning ∧
    timeCategory 0 = none := by
  refine ⟨by with_unfolding_all decide, by with_unfolding_all decide,
    by with_unfolding_all decide, by with_unfolding_all decide⟩

/-- C7 (amended): the time-of-day bucketing assigns the start hour `h` to
Morning exactly when `0 < h ≤ 12`, Afternoon exactly when `12 < h ≤ 17`,
Evening exactly when `17 < h ≤ 24`, and no bucket otherwise (in particular at
`h = 0`). -/
theorem timeCategory_intervals (h : ℚ) :
    (timeCategory h = some TimeBucket.Morning ↔ 0 < h ∧ h ≤ 12) ∧
    (timeCategory h = some TimeBucket.Afternoon ↔ 12 < h ∧ h ≤ 17) ∧
    (timeCategory h = some TimeBucket.Evening ↔ 17 < h ∧ h ≤ 24) ∧
    (timeCategory h = none ↔ h ≤ 0 ∨ 24 < h) := by
  unfold timeCategory
  split_ifs with h1 h2 h3
  · refine ⟨by simp [h1], ?_, ?_, ?_⟩
    · simp only [Option.some_inj]
      constructor
      · intro hc
        cases hc
      · rintro ⟨ha, _⟩
        exfalso
        linarith [h1.2]
    · simp only [Option.some_inj]
      constructor
      · intro hc
        cases hc
      · rintro ⟨ha, _⟩
        exfalso
        linarith [h1.2]
    · constructor
      · intro hc
        cases hc
      · rintro (ha | ha) <;> [linarith [h1.1]; linarith [h1.2]]
  · refine ⟨?_, by simp [h2], ?_, ?_⟩
    · simp only [Option.some_inj]
      constructor
      · intro hc
        cases hc
      · intro ha
        exact absurd ha h1
    · simp only [Option.some_inj]
      constructor
      · intro hc
        cases hc
      · rintro ⟨ha, _⟩
        exfalso
        linarith [h2.2]
    · constructor
      · intro hc
        cases hc
      · rintro (ha | ha) <;> [linarith [h2.1]; linarith [h2.2]]
  · refine ⟨?_, ?_, by simp [h3], ?_⟩
    · simp only [Option.some_inj]
      constructor
      · intro hc
        cases hc
      · intro ha
        exact absurd ha h1
    · simp only [Option.some_inj]
      constructor
      · intro hc
        cases hc
      · intro ha
        exact absurd ha h2
    · constructor
      · intro hc
        cases hc
      · rintro (ha | ha) <;> [linarith [h3.1]; linarith [h3.2]]
  · push_neg at h1 h2 h3
    refine ⟨?_, ?_, ?_, ?_⟩
    · constructor
      · intro hc
        cases hc
      · rintro ⟨ha, hb⟩
        exact absurd hb (by simpa using h1 ha)
    · constructor
      · intro hc
        cases hc
      · rintro ⟨ha, hb⟩
        exact absurd hb (by simpa using h2 ha)
    · constructor
      · intro hc
        cases hc
      · rintro ⟨ha, hb⟩
        exact absurd hb (by simpa using h3 ha)
    · refine ⟨fun _ => ?_, fun _ => rfl⟩
      rcases le_or_lt h 0 with hle | hpos
      · exact Or.inl hle
      · right
        have hx1 := h1 hpos
        have hx2 := h2 (by linarith)
        have hx3 := h3 (by linarith)
        linarith

/-- Witness for C7 (no hypotheses in the amended theorem; this instantiates it
at the boundary value 12). -/
theorem timeCategory_intervals_witness :
    timeCategory 12 = some TimeBucket.Morning :=
  (timeCategory_intervals 12).1.mpr (by norm_num)

/-! ### Generation streak (`identify_patterns`, part 3) -/

def generationEvents (evs : List Event) : List Event :=
  evs.filter (fun e => decide (themeOf e = "Generation"))

def genTotalOn (evs : List Event) (d : ℕ) : ℚ :=
  (((generationEvents evs).filter (fun e => decide (e.date = d))).map
    (fun e => e.duration)).sum

/-- `daily_generation`: per-date Generation totals (hours), dates in sorted
(= chronological) order, only for dates that actually have Generation
records. -/
def daily_generation (evs : List Event) : List (ℕ × ℚ) :=
  (sortOrd (fun b a => decide (b < a))
      ((generationEvents evs).map (fun e => e.date)).dedup).map
    (fun d => (d, genTotalOn evs d))

/-- The streak loop of `identify_patterns` (lines 192-197): iterate the dates
present in `daily_generation`; a total above 2 hours increments the counter,
anything else resets it; the insight fires when the final value is ≥ 3. -/
def streak_days (evs : List Event) : ℕ :=
  (daily_generation evs).foldl (fun s p => if 2 < p.2 then s + 1 else 0) 0

/-- Modelled from the spec: the §4.3 rolling streak walks every calendar date
from the first to the last Generation date in chronological order; a date
missing from the records is a non-qualifying day (Generation total 0) and
resets the counter to zero. -/
def streakSpec (evs : List Event) : ℕ :=
  match (generationEvents evs).map (fun e => e.date) with
  | [] => 0
  | d0 :: ds =>
    (List.range' (ds.foldl min d0) (ds.foldl max d0 - ds.foldl min d0 + 1)).foldl
      (fun s d => if 2 < genTotalOn evs d then s + 1 else 0) 0

/-- Days 1, 2, 4, 5 each have 3 hours of Generation activity; day 3 is
missing from the record sequence. -/
def gapEvents : List Event :=
  [⟨1, 9, "write a", "", 3⟩, ⟨2, 9, "write b", "", 3⟩,
   ⟨4, 9, "write c", "", 3⟩, ⟨5, 9, "write d", "", 3⟩]

/-- C6: evaluation at the failing input.  The code's streak counter skips the
missing day 3 entirely and reaches 4, firing its "4 consecutive days" insight,
while the specified streak (gaps reset) ends at 2 and fires nothing. -/
theorem streak_gap_not_reset :
    streak_days gapEvents = 4 ∧ 3 ≤ streak_days gapEvents ∧
    streakSpec gapEvents = 2 ∧ ¬ 3 ≤ streakSpec gapEvents := by
  refine ⟨by with_unfolding_all decide, by with_unfolding_all decide,
    by with_unfolding_all decide, by with_unfolding_all decide⟩

/-! ### Recommendation generator (`DataPipeline.generate_recommendations`)

The function is modelled after its database reads: `pos`/`neg` are the
(domain, metric) pairs of the positive/negative correlation lists, `alloc`
is the result of the 30-day `GROUP BY domain` query (distinct domains, summed
minutes).  Python iterates the *sets* `high_value_domains` and
`low_value_domains` in an unspecified, hash-dependent order; that order is
made explicit as the `hv` and `lv` arguments (each a permutation of the
corresponding deduplicated domain set). -/

structure DMPair where
  domain : String
  metric : String
  deriving DecidableEq

structure Recommendation where
  domain : String
  action : String
  reason : String
  current_percentage : ℚ
  suggested_percentage : ℚ
  priority : String
  deriving DecidableEq

def priorityRank (p : String) : ℕ :=
  if p = "high" then 0 else if p = "medium" then 1 else if p = "low" then 2 else 3

/-- Python's stable `sorted(..., key=lambda x: priority_order.get(x["priority"], 3))`. -/
def sortRecos : List Recommendation → List Recommendation :=
  sortOrd (fun b a => decide (priorityRank b.priority < priorityRank a.priority))

def totalMinutes (alloc : List (String × ℚ)) : ℚ := (alloc.map (fun x => x.2)).sum

/-- `current_alloc_dict.get(domain, 0)` in minutes (the `GROUP BY` makes
domains distinct, so the filtered sum is exactly the dict lookup). -/
def minutesFor (alloc : List (String × ℚ)) (d : String) : ℚ :=
  ((alloc.filter (fun x => decide (x.1 = d))).map (fun x => x.2)).sum

def pctFor (alloc : List (String × ℚ)) (d : String) : ℚ :=
  minutesFor alloc d / totalMinutes alloc * 100

def metricsText (corrs : List DMPair) (d : String) : String :=
  String.intercalate ", " ((corrs.filter (fun c => decide (c.domain = d))).map
    (fun c => c.metric))

/-- The body of the `for domain in high_value_domains` loop. -/
def positiveReco (alloc : List (String × ℚ)) (pos : List DMPair) (d : String) :
    Recommendation :=
  if pctFor alloc d < 10 then
    { domain := d, action := "increase",
      reason := "Strongly correlates with " ++ metricsText pos d,
      current_percentage := round1 (pctFor alloc d),
      suggested_percentage := round1 (min (pctFor alloc d * (3/2)) (pctFor alloc d + 15)),
      priority := if pctFor alloc d < 5 then "high" else "medium" }
  else if pctFor alloc d < 25 then
    { domain := d, action := "maintain",
      reason := "Positively impacts " ++ metricsText pos d,
      current_percentage := round1 (pctFor alloc d),
      suggested_percentage := round1 (pctFor alloc d),
      priority := "medium" }
  else
    { domain := d, action := "optimize",
      reason := "Important for " ++ metricsText pos d ++ ", but ensure quality over quantity",
      current_percentage := round1 (pctFor alloc d),
      suggested_percentage := round1 (pctFor alloc d),
      priority := "low" }

/-- The body of the `for domain in low_value_domains` loop (after the
`if domain in high_value_domains: continue` guard). -/
def negativeReco (alloc : List (String × ℚ)) (neg : List DMPair) (d : String) :
    Option Recommendation :=
  if 20 < pctFor alloc d then
    some
      { domain := d, action := "decrease",
        reason := "Negatively correlates with " ++ metricsText neg d,
        current_percentage := round1 (pctFor alloc d),
        suggested_percentage := round1 (max (pctFor alloc d * (7/10)) (pctFor alloc d - 15)),
        priority := if 30 < pctFor alloc d then "high" else "medium" }
  else if 5 < pctFor alloc d then
    some
      { domain := d, action := "review",
        reason := "May negatively impact " ++ metricsText neg d,
        current_percentage := round1 (pctFor alloc d),
        suggested_percentage := round1 (pctFor alloc d * (9/10)),
        priority := "medium" }
  else none

/-- `DataPipeline.generate_recommendations` after its database reads. -/
def generate_recommendations (hv lv : List String) (pos neg : List DMPair)
    (alloc : List (String × ℚ)) : List Recommendation :=
  if pos = [] then []
  else if alloc = [] then []
  else if totalMinutes alloc = 0 then []
  else sortRecos
    ((hv.map (positiveReco alloc pos)) ++
     (lv.filterMap (fun d => if d ∈ hv then none else negativeReco alloc neg d)))

theorem positiveReco_cases (alloc : List (String × ℚ)) (pos : List DMPair) (d : String) :
    (positiveReco alloc pos d).domain = d ∧
    (positiveReco alloc pos d).current_percentage = round1 (pctFor alloc d) ∧
    (pctFor alloc d < 10 →
      (positiveReco alloc pos d).action = "increase" ∧
      (positiveReco alloc pos d).suggested_percentage
        = round1 (min (pctFor alloc d * (3/2)) (pctFor alloc d + 15)) ∧
      (positiveReco alloc pos d).priority
        = (if pctFor alloc d < 5 then "high" else "medium")) ∧
    (10 ≤ pctFor alloc d → pctFor alloc d < 25 →
      (positiveReco alloc pos d).action = "maintain" ∧
      (positiveReco alloc pos d).suggested_percentage = round1 (pctFor alloc d) ∧
      (positiveReco alloc pos d).priority = "medium") ∧
    (25 ≤ pctFor alloc d →
      (positiveReco alloc pos d).action = "optimize" ∧
      (positiveReco alloc pos d).suggested_percentage = round1 (pctFor alloc d) ∧
      (positiveReco alloc pos d).priority = "low") := by
  unfold positiveReco
  by_cases h1 : pctFor alloc d < 10
  · rw [if_pos h1]
    exact ⟨rfl, rfl, fun _ => ⟨rfl, rfl, rfl⟩,
      fun hge _ => absurd h1 (not_lt.mpr hge),
      fun hge => absurd h1 (not_lt.mpr (by linarith))⟩
  · by_cases h2 : pctFor alloc d < 25
    · rw [if_neg h1, if_pos h2]
      exact ⟨rfl, rfl, fun hlt => absurd hlt h1,
        fun _ _ => ⟨rfl, rfl, rfl⟩,
        fun hge => absurd h2 (not_lt.mpr hge)⟩
    · rw [if_neg h1, if_neg h2]
      exact ⟨rfl, rfl, fun hlt => absurd hlt h1,
        fun _ hlt => absurd hlt h2,
        fun _ => ⟨rfl, rfl, rfl⟩⟩

theorem negativeReco_cases (alloc : List (String × ℚ)) (neg : List DMPair) (d : String)
    (r : Recommendation) (h : negativeReco alloc neg d = some r) :
    r.domain = d ∧ r.current_percentage = round1 (pctFor alloc d) ∧
    5 < pctFor alloc d ∧
    (20 < pctFor alloc d →
      r.action = "decrease" ∧
      r.suggested_percentage
        = round1 (max (pctFor alloc d * (7/10)) (pctFor alloc d - 15)) ∧
      r.priority = (if 30 < pctFor alloc d then "high" else "medium")) ∧
    (pctFor alloc d ≤ 20 →
      r.action = "review" ∧
      r.suggested_percentage = round1 (pctFor alloc d * (9/10)) ∧
      r.priority = "medium") := by
  by_cases h1 : 20 < pctFor alloc d
  · simp only [negativeReco, if_pos h1, Option.some_inj] at h
    subst h
    exact ⟨rfl, rfl, by linarith, fun _ => ⟨rfl, rfl, rfl⟩,
      fun hle => absurd h1 (not_lt.mpr hle)⟩
  · by_cases h2 : 5 < pctFor alloc d
    · simp only [negativeReco, if_neg h1, if_pos h2, Option.some_inj] at h
      subst h
      exact ⟨rfl, rfl, h2, fun hlt => absurd hlt h1, fun _ => ⟨rfl, rfl, rfl⟩⟩
    · simp only [negativeReco, if_neg h1, if_neg h2] at h
      cases h

theorem pctFor_bounds (alloc : List (String × ℚ)) (d : String)
    (hnn : ∀ x ∈ alloc, 0 ≤ x.2) (ht : totalMinutes alloc ≠ 0) :
    0 ≤ pctFor alloc d ∧ pctFor alloc d ≤ 100 := by
  have hnn' : ∀ y ∈ alloc.map (fun x => x.2), 0 ≤ y := by
    intro y hy
    obtain ⟨x, hx, rfl⟩ := List.mem_map.mp hy
    exact hnn x hx
  have htn : 0 ≤ totalMinutes alloc := List.sum_nonneg hnn'
  have htp : 0 < totalMinutes alloc := lt_of_le_of_ne htn (Ne.symm ht)
  have hm0 : 0 ≤ minutesFor alloc d := by
    apply List.sum_nonneg
    intro y hy
    obtain ⟨x, hx, rfl⟩ := List.mem_map.mp hy
    exact hnn x (List.mem_filter.mp hx).1
  have hmle : minutesFor alloc d ≤ totalMinutes alloc :=
    sum_map_filter_le alloc _ (fun x => x.2) hnn
  constructor
  · apply mul_nonneg (div_nonneg hm0 htn)
    norm_num
  · have hdiv : minutesFor alloc d / totalMinutes alloc ≤ 1 :=
      (div_le_one htp).mpr hmle
    calc minutesFor alloc d / totalMinutes alloc * 100 ≤ 1 * 100 := by
          apply mul_le_mul_of_nonneg_right hdiv
          norm_num
      _ = 100 := by norm_num

theorem round1_zero_hundred {x : ℚ} (h0 : 0 ≤ x) (h1 : x ≤ 100) :
    0 ≤ round1 x ∧ round1 x ≤ 100 := by
  have hlo : ((0 : ℤ) : ℚ) ≤ x := by exact_mod_cast h0
  have hhi : x ≤ ((100 : ℤ) : ℚ) := by exact_mod_cast h1
  obtain ⟨a, b⟩ := round1_bounds hlo hhi
  exact ⟨by exact_mod_cast a, by exact_mod_cast b⟩

theorem positiveReco_suggested_bounds (alloc : List (String × ℚ)) (pos : List DMPair)
    (d : String) (h0 : 0 ≤ pctFor alloc d) (h1 : pctFor alloc d ≤ 100) :
    0 ≤ (positiveReco alloc pos d).suggested_percentage ∧
    (positiveReco alloc pos d).suggested_percentage ≤ 100 := by
  unfold positiveReco
  by_cases hc1 : pctFor alloc d < 10
  · rw [if_pos hc1]
    apply round1_zero_hundred
    · exact le_min (by linarith) (by linarith)
    · calc min (pctFor alloc d * (3/2)) (pctFor alloc d + 15)
          ≤ pctFor alloc d * (3/2) := min_le_left _ _
        _ ≤ 100 := by linarith
  · by_cases hc2 : pctFor alloc d < 25
    · rw [if_neg hc1, if_pos hc2]
      exact round1_zero_hundred h0 h1
    · rw [if_neg hc1, if_neg hc2]
      exact round1_zero_hundred h0 h1

theorem negativeReco_suggested_bounds (alloc : List (String × ℚ)) (neg : List DMPair)
    (d : String) (r : Recommendation) (h : negativeReco alloc neg d = some r)
    (h0 : 0 ≤ pctFor alloc d) (h1 : pctFor alloc d ≤ 100) :
    0 ≤ r.suggested_percentage ∧ r.suggested_percentage ≤ 100 := by
  by_cases hc1 : 20 < pctFor alloc d
  · simp only [negativeReco, if_pos hc1, Option.some_inj] at h
    subst h
    apply round1_zero_hundred
    · exact le_trans (by linarith) (le_max_left _ _)
    · exact max_le (by linarith) (by linarith)
  · by_cases hc2 : 5 < pctFor alloc d
    · simp only [negativeReco, if_neg hc1, if_pos hc2, Option.some_inj] at h
      subst h
      apply round1_zero_hundred
      · linarith
      · linarith
    · simp only [negativeReco, if_neg hc1, if_neg hc2] at h
      cases h

/-- C1 (amended): every generated recommendation matches the §4.5 tables for
its domain's current allocation percentage and correlation sign, with the
suggested percentage being the table value rounded to one decimal (the same
rounding the code applies to `current_percentage`); domains in both
correlation sets get only the positive-side recommendation; negative-only
domains at or below 5% get no recommendation; and every suggested percentage
lies in [0, 100]. -/
theorem generate_recommendations_table (hv lv : List String) (pos neg : List DMPair)
    (alloc : List (String × ℚ))
    (hhv : hv.Perm (pos.map (fun c => c.domain)).dedup)
    (hlv : lv.Perm (neg.map (fun c => c.domain)).dedup)
    (hnd : (alloc.map (fun x => x.1)).Nodup)
    (hnn : ∀ x ∈ alloc, 0 ≤ x.2) :
    ∀ r ∈ generate_recommendations hv lv pos neg alloc,
      (0 ≤ r.suggested_percentage ∧ r.suggested_percentage ≤ 100) ∧
      r.current_percentage = round1 (pctFor alloc r.domain) ∧
      ((∃ c ∈ pos, c.domain = r.domain) →
        (pctFor alloc r.domain < 10 →
          r.action = "increase" ∧
          r.suggested_percentage
            = round1 (min (pctFor alloc r.domain * (3/2)) (pctFor alloc r.domain + 15)) ∧
          r.priority = (if pctFor alloc r.domain < 5 then "high" else "medium")) ∧
        (10 ≤ pctFor alloc r.domain → pctFor alloc r.domain < 25 →
          r.action = "maintain" ∧ r.suggested_percentage = r.current_percentage ∧
          r.priority = "medium") ∧
        (25 ≤ pctFor alloc r.domain →
          r.action = "optimize" ∧ r.suggested_percentage = r.current_percentage ∧
          r.priority = "low")) ∧
      ((∀ c ∈ pos, c.domain ≠ r.domain) →
        (∃ c ∈ neg, c.domain = r.domain) ∧ 5 < pctFor alloc r.domain ∧
        (20 < pctFor alloc r.domain →
          r.action = "decrease" ∧
          r.suggested_percentage
            = round1 (max (pctFor alloc r.domain * (7/10)) (pctFor alloc r.domain - 15)) ∧
          r.priority = (if 30 < pctFor alloc r.domain then "high" else "medium")) ∧
        (pctFor alloc r.domain ≤ 20 →
          r.action = "review" ∧
          r.suggested_percentage = round1 (pctFor alloc r.domain * (9/10)) ∧
          r.priority = "medium")) := by
  intro r hr
  rw [generate_recommendations] at hr
  split_ifs at hr with hp ha ht
  · exact absurd hr (List.not_mem_nil r)
  · exact absurd hr (List.not_mem_nil r)
  · exact absurd hr (List.not_mem_nil r)
  have hdompos : ∀ d ∈ hv, ∃ c ∈ pos, c.domain = d := by
    intro d hd
    have : d ∈ (pos.map (fun c => c.domain)).dedup := hhv.mem_iff.mp hd
    obtain ⟨c, hc, hcd⟩ := List.mem_map.mp (List.mem_dedup.mp this)
    exact ⟨c, hc, hcd⟩
  have hdomneg : ∀ d ∈ lv, ∃ c ∈ neg, c.domain = d := by
    intro d hd
    have : d ∈ (neg.map (fun c => c.domain)).dedup := hlv.mem_iff.mp hd
    obtain ⟨c, hc, hcd⟩ := List.mem_map.mp (List.mem_dedup.mp this)
    exact ⟨c, hc, hcd⟩
  have hnotpos : ∀ d, (∃ c ∈ pos, c.domain = d) → d ∈ hv := by
    rintro d ⟨c, hc, hcd⟩
    apply hhv.mem_iff.mpr
    exact List.mem_dedup.mpr (List.mem_map.mpr ⟨c, hc, hcd⟩)
  rw [sortRecos, mem_sortOrd] at hr
  rcases List.mem_append.mp hr with hpos | hneg
  · obtain ⟨d, hd, rfl⟩ := List.mem_map.mp hpos
    obtain ⟨hdom, hcur, htab1, htab2, htab3⟩ := positiveReco_cases alloc pos d
    have hb := pctFor_bounds alloc d hnn ht
    refine ⟨positiveReco_suggested_bounds alloc pos d hb.1 hb.2, ?_, ?_, ?_⟩
    · rw [hdom]
      exact hcur
    · intro _
      rw [hdom]
      refine ⟨htab1, ?_, ?_⟩
      · intro hge hlt
        obtain ⟨ha1, ha2, ha3⟩ := htab2 hge hlt
        exact ⟨ha1, ha2.trans hcur.symm, ha3⟩
      · intro hge
        obtain ⟨ha1, ha2, ha3⟩ := htab3 hge
        exact ⟨ha1, ha2.trans hcur.symm, ha3⟩
    · intro hnone
      obtain ⟨c, hc, hcd⟩ := hdompos d hd
      exact absurd (hcd.trans hdom.symm) (hnone c hc)
  · obtain ⟨d, hdlv, hfm⟩ := List.mem_filterMap.mp hneg
    by_cases hdhv : d ∈ hv
    · rw [if_pos hdhv] at hfm
      cases hfm
    rw [if_neg hdhv] at hfm
    obtain ⟨hdom, hcur, h5, htabd, htabr⟩ := negativeReco_cases alloc neg d r hfm
    have hb := pctFor_bounds alloc d hnn ht
    refine ⟨negativeReco_suggested_bounds alloc neg d r hfm hb.1 hb.2, ?_, ?_, ?_⟩
    · rw [hdom]
      exact hcur
    · rintro ⟨c, hc, hcd⟩
      exact absurd (hnotpos d ⟨c, hc, hcd.trans hdom⟩) hdhv
    · intro _
      rw [hdom]
      exact ⟨hdomneg d hdlv, h5, htabd, htabr⟩

/-- C1 counterexample: for a negative-only domain at 100/7 ≈ 14.29%, the code
emits a `review` recommendation whose suggested percentage is the rounded
value 12.9, which differs from the claim's exact `current * 0.9 = 90/7`. -/
theorem generate_recommendations_table_cex :
    (⟨"TV", "review", "May negatively impact happiness", 143/10, 129/10, "medium"⟩
        : Recommendation)
      ∈ generate_recommendations ["Gen"] ["TV"] [⟨"Gen", "happiness"⟩]
          [⟨"TV", "happiness"⟩] [("Gen", 1), ("TV", 1), ("Rest", 5)] ∧
    (129 : ℚ)/10 ≠ pctFor [("Gen", 1), ("TV", 1), ("Rest", 5)] "TV" * (9/10) := by
  refine ⟨by with_unfolding_all decide, by with_unfolding_all decide⟩

/-- Witness for C1 at the §8 scenario: a positive-set domain at 3% gets an
`increase` recommendation with suggested 4.5 and priority `high`. -/
theorem generate_recommendations_table_witness :
    (⟨"Gro", "increase", "Strongly correlates with happiness", 3, 9/2, "high"⟩
        : Recommendation)
      ∈ generate_recommendations ["Gro"] [] [⟨"Gro", "happiness"⟩] []
          [("Gro", 3), ("Oth", 97)] ∧
    (0 ≤ (⟨"Gro", "increase", "Strongly correlates with happiness", 3, 9/2, "high"⟩
        : Recommendation).suggested_percentage ∧
      (⟨"Gro", "increase", "Strongly correlates with happiness", 3, 9/2, "high"⟩
        : Recommendation).suggested_percentage ≤ 100) := by
  have hmem : (⟨"Gro", "increase", "Strongly correlates with happiness", 3, 9/2, "high"⟩
        : Recommendation)
      ∈ generate_recommendations ["Gro"] [] [⟨"Gro", "happiness"⟩] []
          [("Gro", 3), ("Oth", 97)] := by
    with_unfolding_all decide
  refine ⟨hmem, ?_⟩
  exact (generate_recommendations_table ["Gro"] [] [⟨"Gro", "happiness"⟩] []
    [("Gro", 3), ("Oth", 97)] (by decide) (by decide) (by decide)
    (by with_unfolding_all decide) _ hmem).1

/-- C9: evaluation at the failing input.  Both argument orders are valid
enumerations of the same positive-correlation domain set, yet the generator
returns its recommendations in different orders — the within-priority order
depends on Python's unordered set iteration, so two runs need not agree. -/
theorem recommendations_order_depends_on_set_order :
    (["Charging", "Growth"].Perm
        (([⟨"Charging", "happiness"⟩, ⟨"Growth", "happiness"⟩] : List DMPair).map
          (fun c => c.domain)).dedup ∧
      ["Growth", "Charging"].Perm
        (([⟨"Charging", "happiness"⟩, ⟨"Growth", "happiness"⟩] : List DMPair).map
          (fun c => c.domain)).dedup) ∧
    generate_recommendations ["Charging", "Growth"] []
        [⟨"Charging", "happiness"⟩, ⟨"Growth", "happiness"⟩] []
        [("Charging", 3), ("Growth", 3), ("Rest", 94)]
      ≠ generate_recommendations ["Growth", "Charging"] []
        [⟨"Charging", "happiness"⟩, ⟨"Growth", "happiness"⟩] []
        [("Charging", 3), ("Growth", 3), ("Rest", 94)] := by
  refine ⟨⟨by decide, by decide⟩, by with_unfolding_all decide⟩

/-- C10: with no positive correlations the generator returns the empty list,
regardless of negative correlations and of the current allocation. -/
theorem generate_recommendations_empty_positive (hv lv : List String)
    (neg : List DMPair) (alloc : List (String × ℚ)) :
    generate_recommendations hv lv [] neg alloc = [] := by
  rw [generate_recommendations, if_pos rfl]

/-! ### Correlation engine (`DataPipeline.analyze_patterns`)

Inputs are the `time_entries ⋈ activities` rows (already summed per
`(day, domain)` is not assumed: `minutesOn` sums, matching the SQL `SUM`)
and the `outcome_metrics` rows keyed by date.  The pandas `pivot_table` on
index `[day, happiness, peace, freedom, well_being]` drops every group whose
key contains a NaN, which is what `pivotDays` reproduces. -/

structure TERow where
  day : ℕ
  domain : String
  minutes : ℚ
  deriving DecidableEq

structure OMRow where
  happiness : Option ℚ
  peace : Option ℚ
  freedom : Option ℚ
  well_being : Option ℚ
  deriving DecidableEq

def omLookup (om : List (ℕ × OMRow)) (d : ℕ) : Option OMRow :=
  (om.find? (fun p => decide (p.1 = d))).map (fun p => p.2)

/-- Rows of the SQL join: `WHERE om.happiness IS NOT NULL` (the LEFT JOIN
leaves happiness NULL when the date has no outcome row). -/
def dfRows (te : List TERow) (om : List (ℕ × OMRow)) : List TERow :=
  te.filter (fun r => ((omLookup om r.day).bind (fun m => m.happiness)).isSome)

def dfDays (te : List TERow) (om : List (ℕ × OMRow)) : List ℕ :=
  ((dfRows te om).map (fun r => r.day)).dedup

def rowComplete (m : OMRow) : Bool :=
  m.happiness.isSome && m.peace.isSome && m.freedom.isSome && m.well_being.isSome

/-- The dates surviving the pivot: pandas drops any pivot group whose index
key (day plus the four metric columns) contains NaN. -/
def pivotDays (te : List TERow) (om : List (ℕ × OMRow)) : List ℕ :=
  (dfDays te om).filter (fun d => ((omLookup om d).map rowComplete).getD false)

def domainCols (te : List TERow) (om : List (ℕ × OMRow)) : List String :=
  (((dfRows te om).filter (fun r => decide (r.day ∈ pivotDays te om))).map
    (fun r => r.domain)).dedup

/-- The pivoted minutes cell for `(day, domain)` (`fill_value=0` makes a
missing cell 0, and the SQL `SUM` aggregates duplicates). -/
def minutesOn (te : List TERow) (om : List (ℕ × OMRow)) (d : ℕ) (dom : String) : ℚ :=
  (((dfRows te om).filter
      (fun r => decide (r.day = d) && decide (r.domain = dom))).map
    (fun r => r.minutes)).sum

def metricNames : List String := ["happiness", "peace", "freedom", "well_being"]

def metricVal (m : String) (row : OMRow) : Option ℚ :=
  if m = "happiness" then row.happiness
  else if m = "peace" then row.peace
  else if m = "freedom" then row.freedom
  else if m = "well_being" then row.well_being
  else none

def metricOn (om : List (ℕ × OMRow)) (mname : String) (d : ℕ) : Option ℚ :=
  (omLookup om d).bind (metricVal mname)

/-- Dates with both a (post-pivot, hence non-null) domain-minutes value and a
non-null metric value: the claim's paired-sample count for a pair. -/
def pairedDays (te : List TERow) (om : List (ℕ × OMRow)) (mname : String) : List ℕ :=
  (pivotDays te om).filter (fun d => (metricOn om mname d).isSome)

def corrSeries (te : List TERow) (om : List (ℕ × OMRow)) (dom mname : String) :
    List (ℚ × ℚ) :=
  (pivotDays te om).filterMap (fun d =>
    (metricOn om mname d).map (fun v => (minutesOn te om d dom, v)))

/-! Pearson correlation (pandas `Series.corr`). -/

def meanFst (xs : List (ℚ × ℚ)) : ℚ := (xs.map (fun p => p.1)).sum / xs.length

def meanSnd (xs : List (ℚ × ℚ)) : ℚ := (xs.map (fun p => p.2)).sum / xs.length

def ssxx (xs : List (ℚ × ℚ)) : ℚ := (xs.map (fun p => (p.1 - meanFst xs)^2)).sum

def ssyy (xs : List (ℚ × ℚ)) : ℚ := (xs.map (fun p => (p.2 - meanSnd xs)^2)).sum

def ssxy (xs : List (ℚ × ℚ)) : ℚ :=
  (xs.map (fun p => (p.1 - meanFst xs) * (p.2 - meanSnd xs))).sum

/-- pandas `Series.corr`: the Pearson coefficient, NaN (`none`) when either
series has zero variance (this subsumes series with fewer than two points). -/
noncomputable def pearson (xs : List (ℚ × ℚ)) : Option ℝ :=
  if ssxx xs = 0 ∨ ssyy xs = 0 then none
  else some ((ssxy xs : ℝ) / Real.sqrt ((ssxx xs : ℝ) * (ssyy xs : ℝ)))

theorem list_sum_eq_fin_sum {α : Type*} (l : List α) (h : α → ℚ) :
    (l.map h).sum = ∑ i : Fin l.length, h (l.get i) := by
  conv_lhs => rw [← List.ofFn_get l]
  rw [List.map_ofFn, List.sum_ofFn]
  rfl

theorem list_cauchy_schwarz {α : Type*} (l : List α) (f g : α → ℚ) :
    ((l.map (fun a => f a * g a)).sum)^2
      ≤ ((l.map (fun a => (f a)^2)).sum) * ((l.map (fun a => (g a)^2)).sum) := by
  rw [list_sum_eq_fin_sum l (fun a => f a * g a), list_sum_eq_fin_sum l (fun a => (f a)^2),
    list_sum_eq_fin_sum l (fun a => (g a)^2)]
  exact Finset.sum_mul_sq_le_sq_mul_sq Finset.univ (fun i => f (l.get i))
    (fun i => g (l.get i))

theorem pearson_bounds (xs : List (ℚ × ℚ)) (r : ℝ) (h : pearson xs = some r) :
    -1 ≤ r ∧ r ≤ 1 := by
  unfold pearson at h
  split_ifs at h with hz
  push_neg at hz
  obtain ⟨hx, hy⟩ := hz
  have hx0 : 0 ≤ ssxx xs := by
    apply List.sum_nonneg
    intro v hv
    obtain ⟨p, hp, rfl⟩ := List.mem_map.mp hv
    positivity
  have hy0 : 0 ≤ ssyy xs := by
    apply List.sum_nonneg
    intro v hv
    obtain ⟨p, hp, rfl⟩ := List.mem_map.mp hv
    positivity
  have hxp : (0 : ℚ) < ssxx xs := lt_of_le_of_ne hx0 (Ne.symm hx)
  have hyp : (0 : ℚ) < ssyy xs := lt_of_le_of_ne hy0 (Ne.symm hy)
  have hcs : (ssxy xs)^2 ≤ ssxx xs * ssyy xs := by
    have hgen := list_cauchy_schwarz xs (fun p => p.1 - meanFst xs)
      (fun p => p.2 - meanSnd xs)
    simpa only [ssxx, ssyy, ssxy] using hgen
  rw [Option.some_inj] at h
  rw [← h]
  have hprod : (0 : ℝ) < (ssxx xs : ℝ) * (ssyy xs : ℝ) := by
    have : (0 : ℚ) < ssxx xs * ssyy xs := mul_pos hxp hyp
    exact_mod_cast this
  have hS : 0 < Real.sqrt ((ssxx xs : ℝ) * (ssyy xs : ℝ)) := Real.sqrt_pos.mpr hprod
  have habs : |(ssxy xs : ℝ)| ≤ Real.sqrt ((ssxx xs : ℝ) * (ssyy xs : ℝ)) := by
    rw [← Real.sqrt_sq_eq_abs]
    apply Real.sqrt_le_sqrt
    exact_mod_cast hcs
  have hd : |(ssxy xs : ℝ) / Real.sqrt ((ssxx xs : ℝ) * (ssyy xs : ℝ))| ≤ 1 := by
    rw [abs_div, abs_of_pos hS]
    exact (div_le_one hS).mpr habs
  exact abs_le.mp hd

theorem round2R_bounds {x : ℝ} (hlo : -1 ≤ x) (hhi : x ≤ 1) :
    -1 ≤ round2R x ∧ round2R x ≤ 1 := by
  have h1 : ((-100 : ℤ) : ℝ) ≤ x * 100 := by push_cast; linarith
  have h2 : x * 100 ≤ ((100 : ℤ) : ℝ) := by push_cast; linarith
  obtain ⟨a, b⟩ := rne_bounds h1 h2
  unfold round2R
  constructor
  · have ha : ((-100 : ℤ) : ℝ) ≤ ((rne (x * 100) : ℤ) : ℝ) := by exact_mod_cast a
    push_cast at ha
    linarith
  · have hb : ((rne (x * 100) : ℤ) : ℝ) ≤ ((100 : ℤ) : ℝ) := by exact_mod_cast b
    push_cast at hb
    linarith

theorem round2R_idem (x : ℝ) : round2R (round2R x) = round2R x := by
  unfold round2R
  have hcell : ((rne (x * 100) : ℤ) : ℝ) / 100 * 100 = ((rne (x * 100) : ℤ) : ℝ) := by
    field_simp
  rw [hcell, rne_intCast]

structure CorrEntry where
  domain : String
  metric : String
  corr : ℝ

/-- The `correlations` dict (domain → metric → rounded coefficient),
flattened, keeping the source's per-metric `notna().sum() > 3` gate. -/
noncomputable def corrMatrix (te : List TERow) (om : List (ℕ × OMRow)) :
    List CorrEntry :=
  (domainCols te om).flatMap (fun dom =>
    metricNames.filterMap (fun m =>
      if 3 < (pairedDays te om m).length then
        (pearson (corrSeries te om dom m)).map (fun c =>
          { domain := dom, metric := m, corr := round2R c })
      else none))

/-- `sorted(positive_correlations, key=corr, reverse=True)`. -/
noncomputable def sortCorrDesc : List CorrEntry → List CorrEntry :=
  sortOrd (fun b a => decide (a.corr < b.corr))

/-- `sorted(negative_correlations, key=corr)`. -/
noncomputable def sortCorrAsc : List CorrEntry → List CorrEntry :=
  sortOrd (fun b a => decide (b.corr < a.corr))

structure Insights where
  positive : List CorrEntry
  negative : List CorrEntry
  matrix : List CorrEntry

/-- `DataPipeline.analyze_patterns` after the SQL read: empty insights when
the joined frame is empty, there are no domain columns, or fewer than 5
pivoted rows; otherwise the positive/negative summary lists (threshold ±0.3
on the rounded coefficients, sorted by strength) plus the full matrix. -/
noncomputable def analyze_patterns (te : List TERow) (om : List (ℕ × OMRow)) :
    Insights :=
  if dfRows te om = [] then ⟨[], [], []⟩
  else if domainCols te om = [] ∨ (pivotDays te om).length < 5 then ⟨[], [], []⟩
  else
    ⟨sortCorrDesc ((corrMatrix te om).filter (fun c => decide ((3:ℝ)/10 < c.corr))),
     sortCorrAsc ((corrMatrix te om).filter (fun c => decide (c.corr < -((3:ℝ)/10)))),
     corrMatrix te om⟩

theorem mem_corrMatrix (te : List TERow) (om : List (ℕ × OMRow)) (c : CorrEntry)
    (hc : c ∈ corrMatrix te om) :
    c.metric ∈ metricNames ∧ 3 < (pairedDays te om c.metric).length ∧
    ∃ v, pearson (corrSeries te om c.domain c.metric) = some v ∧ c.corr = round2R v := by
  obtain ⟨dom, hdom, hmem⟩ := List.mem_flatMap.mp hc
  obtain ⟨m, hm, hsome⟩ := List.mem_filterMap.mp hmem
  by_cases hlen : 3 < (pairedDays te om m).length
  · rw [if_pos hlen] at hsome
    cases hp : pearson (corrSeries te om dom m) with
    | none =>
      rw [hp] at hsome
      cases hsome
    | some v =>
      rw [hp, Option.map_some', Option.some_inj] at hsome
      subst hsome
      exact ⟨hm, hlen, v, hp, rfl⟩
  · rw [if_neg hlen] at hsome
    cases hsome

theorem pairedDays_eq (te : List TERow) (om : List (ℕ × OMRow)) (m : String)
    (hm : m ∈ metricNames) : pairedDays te om m = pivotDays te om := by
  apply List.filter_eq_self.mpr
  intro d hd
  obtain ⟨hdf, hcomp⟩ := List.mem_filter.mp hd
  cases hrow : omLookup om d with
  | none =>
    rw [hrow] at hcomp
    simp at hcomp
  | some row =>
    rw [hrow] at hcomp
    simp only [Option.map_some', Option.getD_some] at hcomp
    simp only [rowComplete, Bool.and_eq_true] at hcomp
    obtain ⟨⟨⟨hh, hp⟩, hf⟩, hw⟩ := hcomp
    simp only [metricOn, hrow, Option.some_bind]
    simp only [metricNames, List.mem_cons, List.not_mem_nil, or_false] at hm
    rcases hm with rfl | rfl | rfl | rfl
    · have hmv : metricVal "happiness" row = row.happiness := rfl
      rw [hmv]
      exact hh
    · have hmv : metricVal "peace" row = row.peace := rfl
      rw [hmv]
      exact hp
    · have hmv : metricVal "freedom" row = row.freedom := rfl
      rw [hmv]
      exact hf
    · have hmv : metricVal "well_being" row = row.well_being := rfl
      rw [hmv]
      exact hw

/-- C3: every pair reported by the correlation step (the matrix, hence also
the positive and negative summary lists, which are subsets of it) has at
least 5 dates with both a non-null domain-minutes value and a non-null metric
value; its coefficient lies in [-1, 1] and is exactly a two-decimal rounded
value; and the pair is in the positive (negative) summary list exactly when
its coefficient exceeds +0.3 (is below -0.3).  Pairs with fewer than 5 paired
dates are skipped: they cannot appear in the matrix or the lists. -/
theorem analyze_patterns_sound (te : List TERow) (om : List (ℕ × OMRow))
    (c : CorrEntry) (hc : c ∈ (analyze_patterns te om).matrix) :
    5 ≤ (pairedDays te om c.metric).length ∧
    (-1 ≤ c.corr ∧ c.corr ≤ 1) ∧ round2R c.corr = c.corr ∧
    (c ∈ (analyze_patterns te om).positive ↔ (3:ℝ)/10 < c.corr) ∧
    (c ∈ (analyze_patterns te om).negative ↔ c.corr < -((3:ℝ)/10)) ∧
    (∀ e : CorrEntry,
      e ∈ (analyze_patterns te om).positive ∨ e ∈ (analyze_patterns te om).negative →
      e ∈ (analyze_patterns te om).matrix) := by
  unfold analyze_patterns at hc ⊢
  split_ifs at hc ⊢ with h1 h2
  · exact absurd hc (List.not_mem_nil c)
  · exact absurd hc (List.not_mem_nil c)
  push_neg at h2
  obtain ⟨hcols, hlen5⟩ := h2
  dsimp only at hc ⊢
  obtain ⟨hmet, hgt3, v, hv, hcr⟩ := mem_corrMatrix te om c hc
  have hpd : pairedDays te om c.metric = pivotDays te om := pairedDays_eq te om _ hmet
  have hb := pearson_bounds _ v hv
  have hbc : -1 ≤ c.corr ∧ c.corr ≤ 1 := by
    rw [hcr]
    exact round2R_bounds hb.1 hb.2
  refine ⟨by rw [hpd]; exact hlen5, hbc, by rw [hcr]; exact round2R_idem v, ?_, ?_, ?_⟩
  · rw [sortCorrDesc, mem_sortOrd, List.mem_filter]
    constructor
    · rintro ⟨-, hdec⟩
      exact of_decide_eq_true hdec
    · intro hlt
      exact ⟨hc, decide_eq_true hlt⟩
  · rw [sortCorrAsc, mem_sortOrd, List.mem_filter]
    constructor
    · rintro ⟨-, hdec⟩
      exact of_decide_eq_true hdec
    · intro hlt
      exact ⟨hc, decide_eq_true hlt⟩
  · intro e he
    rcases he with he | he
    · rw [sortCorrDesc, mem_sortOrd, List.mem_filter] at he
      exact he.1
    · rw [sortCorrAsc, mem_sortOrd, List.mem_filter] at he
      exact he.1

/-- Five days of time entries for one domain, minutes 1..5. -/
def te5 : List TERow :=
  [⟨1, "Gen", 1⟩, ⟨2, "Gen", 2⟩, ⟨3, "Gen", 3⟩, ⟨4, "Gen", 4⟩, ⟨5, "Gen", 5⟩]

/-- Matching outcome metrics: every metric equals the day's minutes, so every
correlation is exactly 1. -/
def om5 : List (ℕ × OMRow) :=
  [(1, ⟨some 1, some 1, some 1, some 1⟩), (2, ⟨some 2, some 2, some 2, some 2⟩),
   (3, ⟨some 3, some 3, some 3, some 3⟩), (4, ⟨some 4, some 4, some 4, some 4⟩),
   (5, ⟨some 5, some 5, some 5, some 5⟩)]

theorem round2R_one : round2R 1 = 1 := by
  unfold round2R
  have h : (1 : ℝ) * 100 = ((100 : ℤ) : ℝ) := by norm_num
  rw [h, rne_intCast]
  norm_num

theorem pearson_te5 :
    pearson (corrSeries te5 om5 "Gen" "happiness") = some 1 := by
  have hseries : corrSeries te5 om5 "Gen" "happiness"
      = [(1, 1), (2, 2), (3, 3), (4, 4), (5, 5)] := by
    with_unfolding_all decide
  have hxx : ssxx [((1:ℚ), (1:ℚ)), (2, 2), (3, 3), (4, 4), (5, 5)] = 10 := by
    with_unfolding_all decide
  have hyy : ssyy [((1:ℚ), (1:ℚ)), (2, 2), (3, 3), (4, 4), (5, 5)] = 10 := by
    with_unfolding_all decide
  have hxy : ssxy [((1:ℚ), (1:ℚ)), (2, 2), (3, 3), (4, 4), (5, 5)] = 10 := by
    with_unfolding_all decide
  rw [hseries]
  unfold pearson
  rw [hxx, hyy, hxy]
  have hcond : ¬((10 : ℚ) = 0 ∨ (10 : ℚ) = 0) := by norm_num
  rw [if_neg hcond]
  have hsq : Real.sqrt (((10 : ℚ) : ℝ) * ((10 : ℚ) : ℝ)) = 10 := by
    have h2 : (((10 : ℚ) : ℝ) * ((10 : ℚ) : ℝ)) = 10 ^ 2 := by push_cast; ring
    rw [h2, Real.sqrt_sq (by norm_num : (0:ℝ) ≤ 10)]
  rw [hsq, Option.some_inj]
  push_cast
  norm_num

theorem te5_entry_mem_matrix :
    (⟨"Gen", "happiness", (1:ℝ)⟩ : CorrEntry) ∈ (analyze_patterns te5 om5).matrix := by
  have hne : ¬(dfRows te5 om5 = []) := by with_unfolding_all decide
  have hg2 : ¬(domainCols te5 om5 = [] ∨ (pivotDays te5 om5).length < 5) := by
    with_unfolding_all decide
  have hmm : (⟨"Gen", "happiness", (1:ℝ)⟩ : CorrEntry) ∈ corrMatrix te5 om5 := by
    apply List.mem_flatMap.mpr
    refine ⟨"Gen", by with_unfolding_all decide, ?_⟩
    apply List.mem_filterMap.mpr
    refine ⟨"happiness", by decide, ?_⟩
    have hlen : 3 < (pairedDays te5 om5 "happiness").length := by
      with_unfolding_all decide
    rw [if_pos hlen, pearson_te5, Option.map_some', round2R_one]
  unfold analyze_patterns
  rw [if_neg hne, if_neg hg2]
  exact hmm

/-! ### Happiness from sentiment (`calculate_daily_metrics`, lines 300-369,
and the matching conversion in the journal import) -/

/-- `int((sentiment + 1) * 5) if sentiment is not None else None`. -/
def calcHappiness (sentiment : Option ℚ) : Option ℤ :=
  sentiment.map (fun p => intTrunc ((p + 1) * 5))

/-- The outcome-metrics write for one date: `existing` is `none` when the
date has no row yet, and `some old` when it has one whose stored happiness is
`old` (a nullable column).  An existing row is updated with
`happiness = COALESCE(new, happiness)`; a missing row is inserted with the
new value (NULL when no sentiment is available). -/
def storeHappiness (existing : Option (Option ℤ)) (sentiment : Option ℚ) : Option ℤ :=
  match existing with
  | some old =>
    match calcHappiness sentiment with
    | some h => some h
    | none => old
  | none => calcHappiness sentiment

/-- C8 counterexample: at sentiment polarity 1/10 the code stores
`int(5.5) = 5`, while the claim's `round((p + 1) * 5)` equals 6 — the stored
value is a truncation, not a rounding. -/
theorem storeHappiness_cex :
    storeHappiness none (some (1/10)) = some 5 ∧
    rne (((1 : ℚ)/10 + 1) * 5) = 6 ∧
    storeHappiness none (some (1/10)) ≠ some (rne (((1 : ℚ)/10 + 1) * 5)) := by
  refine ⟨by with_unfolding_all decide, by with_unfolding_all decide,
    by with_unfolding_all decide⟩

/-- C8 (amended): with an available sentiment `p` the stored happiness equals
the truncation `int((p + 1) * 5)` (which is `⌊(p + 1) * 5⌋` for `p ≥ -1`),
whether the date's row already exists or is freshly inserted; with no
sentiment, an existing row's happiness is left unchanged and a new row
stores NULL. -/
theorem storeHappiness_spec :
    (∀ ex : Option (Option ℤ), ∀ p : ℚ,
      storeHappiness ex (some p) = some (intTrunc ((p + 1) * 5))) ∧
    (∀ p : ℚ, -1 ≤ p → intTrunc ((p + 1) * 5) = ⌊(p + 1) * 5⌋) ∧
    (∀ old : Option ℤ, storeHappiness (some old) none = old) ∧
    storeHappiness none none = none := by
  refine ⟨?_, ?_, ?_, rfl⟩
  · rintro (_ | old) p <;> rfl
  · intro p hp
    have h5 : 0 ≤ (p + 1) * 5 := by nlinarith
    unfold intTrunc
    rw [if_pos h5]
  · intro old
    rfl

/-- Witness for C8 (amended) at concrete inputs. -/
theorem storeHappiness_spec_witness :
    storeHappiness (some (some 3)) (some (1/10))
      = some (intTrunc (((1 : ℚ)/10 + 1) * 5)) ∧
    intTrunc (((1 : ℚ)/10 + 1) * 5) = ⌊((1 : ℚ)/10 + 1) * 5⌋ ∧
    storeHappiness (some (some 3)) none = some 3 :=
  ⟨storeHappiness_spec.1 (some (some 3)) (1/10),
   storeHappiness_spec.2.1 (1/10) (by norm_num),
   storeHappiness_spec.2.2.1 (some 3)⟩

/-- Witness for C3: the theorem applied to the concrete pair
("Gen", happiness) of the five-day dataset, whose coefficient is exactly 1. -/
theorem analyze_patterns_sound_witness :
    5 ≤ (pairedDays te5 om5 (⟨"Gen", "happiness", (1:ℝ)⟩ : CorrEntry).metric).length ∧
    (-1 ≤ (⟨"Gen", "happiness", (1:ℝ)⟩ : CorrEntry).corr ∧
      (⟨"Gen", "happiness", (1:ℝ)⟩ : CorrEntry).corr ≤ 1) ∧
    round2R (⟨"Gen", "happiness", (1:ℝ)⟩ : CorrEntry).corr
      = (⟨"Gen", "happiness", (1:ℝ)⟩ : CorrEntry).corr ∧
    ((⟨"Gen", "happiness", (1:ℝ)⟩ : CorrEntry) ∈ (analyze_patterns te5 om5).positive ↔
      (3:ℝ)/10 < (⟨"Gen", "happiness", (1:ℝ)⟩ : CorrEntry).corr) ∧
    ((⟨"Gen", "happiness", (1:ℝ)⟩ : CorrEntry) ∈ (analyze_patterns te5 om5).negative ↔
      (⟨"Gen", "happiness", (1:ℝ)⟩ : CorrEntry).corr < -((3:ℝ)/10)) ∧
    (∀ e : CorrEntry,
      e ∈ (analyze_patterns te5 om5).positive ∨ e ∈ (analyze_patterns te5 om5).negative →
      e ∈ (analyze_patterns te5 om5).matrix) :=
  analyze_patterns_sound te5 om5 ⟨"Gen", "happiness", 1⟩ te5_entry_mem_matrix

end APM

